import Mathlib

/-!
Shallow embedding of the `usbbw` core: the USB speed model (`src/model/speed.rs`),
endpoint model (`src/model/endpoint.rs`), bandwidth pool (`src/model/bandwidth.rs`),
device-path / topology model (`src/model/topology.rs`) and the relevant passes of
the sysfs topology builder (`src/sysfs/parser.rs`).

Machine integers (`u8`, `u16`, `u32`, `u64`) are embedded as `Nat`; every
arithmetic expression in the embedded functions stays far below the width of the
corresponding Rust type (the largest product is
`2047 * 4 * 8 * 1_000_000 < 2^37`), so `Nat` arithmetic and the Rust wrapping-free
arithmetic coincide on the representable range.  `f64` values (usage percentages)
are embedded as exact rationals `ℚ`; the properties proved about them (the
division-by-zero guard and threshold comparisons applied to the very same value)
do not depend on rounding.  Rust `HashMap`s are embedded as association lists.
-/

/-- `UsbSpeed` from `src/model/speed.rs`. -/
inductive UsbSpeed where
  | Low
  | Full
  | High
  | Super
  | SuperPlus
  | SuperPlus2
  deriving DecidableEq, Repr

/-- `UsbSpeed::raw_bandwidth_bps`. -/
def UsbSpeed.raw_bandwidth_bps : UsbSpeed → Nat
  | .Low => 1500000
  | .Full => 12000000
  | .High => 480000000
  | .Super => 5000000000
  | .SuperPlus => 10000000000
  | .SuperPlus2 => 20000000000

/-- `UsbSpeed::max_periodic_bandwidth_bps`. -/
def UsbSpeed.max_periodic_bandwidth_bps (s : UsbSpeed) : Nat :=
  match s with
  | .Low | .Full => s.raw_bandwidth_bps * 90 / 100
  | .High => s.raw_bandwidth_bps * 80 / 100
  | .Super | .SuperPlus | .SuperPlus2 => s.raw_bandwidth_bps * 80 / 100

/-- `UsbSpeed::frame_period_us`. -/
def UsbSpeed.frame_period_us : UsbSpeed → Nat
  | .Low | .Full => 1000
  | _ => 125

/-- `UsbSpeed::is_superspeed`. -/
def UsbSpeed.is_superspeed : UsbSpeed → Bool
  | .Super | .SuperPlus | .SuperPlus2 => true
  | _ => false

/-- `TransferType` from `src/model/endpoint.rs`. -/
inductive TransferType where
  | Control
  | Bulk
  | Interrupt
  | Isochronous
  deriving DecidableEq, Repr

/-- `TransferType::reserves_bandwidth`. -/
def TransferType.reserves_bandwidth : TransferType → Bool
  | .Interrupt | .Isochronous => true
  | _ => false

/-- `Direction` from `src/model/endpoint.rs`. -/
inductive Direction where
  | In
  | Out
  deriving DecidableEq, Repr

/-- `Endpoint` from `src/model/endpoint.rs`.  `address` is a `u8`,
`max_packet_size` a `u16` and `b_interval` a `u8` in the source. -/
structure Endpoint where
  address : Nat
  transfer_type : TransferType
  direction : Direction
  max_packet_size : Nat
  b_interval : Nat
  interval_str : String
  deriving DecidableEq, Repr

/-- `Endpoint::base_packet_size`: bits 10:0 of `wMaxPacketSize`. -/
def Endpoint.base_packet_size (e : Endpoint) : Nat :=
  e.max_packet_size &&& 0x07FF

/-- `Endpoint::multiplier`: bits 12:11 of `wMaxPacketSize`;
`if mult_bits == 0 { 1 } else { mult_bits + 1 }`. -/
def Endpoint.multiplier (e : Endpoint) : Nat :=
  let mult_bits := (e.max_packet_size >>> 11) &&& 0x03
  if mult_bits = 0 then 1 else mult_bits + 1

/-- `Endpoint::interval_us`.  In the `High`/`Super` arm the source computes
`(self.b_interval - 1).min(15)` on a `u8` that is already known to be nonzero,
so the `Nat` truncated subtraction agrees with the `u8` subtraction. -/
def Endpoint.interval_us (e : Endpoint) (device_speed : UsbSpeed) : Nat :=
  match device_speed with
  | .Low | .Full =>
    let interval_ms := if e.b_interval = 0 then 1 else e.b_interval
    interval_ms * 1000
  | .High | .Super | .SuperPlus | .SuperPlus2 =>
    if e.b_interval = 0 then 125
    else
      let exponent := min (e.b_interval - 1) 15
      (1 <<< exponent) * 125

/-- `Endpoint::bandwidth_bps`. -/
def Endpoint.bandwidth_bps (e : Endpoint) (device_speed : UsbSpeed) : Nat :=
  if !e.transfer_type.reserves_bandwidth then 0
  else
    let interval_us := e.interval_us device_speed
    if interval_us = 0 then 0
    else
      let bits_per_interval := e.base_packet_size * e.multiplier * 8
      bits_per_interval * 1000000 / interval_us

/-- `Endpoint::number`. -/
def Endpoint.number (e : Endpoint) : Nat :=
  e.address &&& 0x0F

/-- `BandwidthPool` from `src/model/bandwidth.rs`. -/
structure BandwidthPool where
  max_periodic_bps : Nat
  used_periodic_bps : Nat
  raw_bandwidth_bps : Nat
  speed : UsbSpeed
  deriving DecidableEq, Repr

/-- `BandwidthPool::new`. -/
def BandwidthPool.new (speed : UsbSpeed) : BandwidthPool :=
  { max_periodic_bps := speed.max_periodic_bandwidth_bps
    used_periodic_bps := 0
    raw_bandwidth_bps := speed.raw_bandwidth_bps
    speed := speed }

/-- `BandwidthPool::with_usage`. -/
def BandwidthPool.with_usage (speed : UsbSpeed) (used_bps : Nat) : BandwidthPool :=
  { max_periodic_bps := speed.max_periodic_bandwidth_bps
    used_periodic_bps := used_bps
    raw_bandwidth_bps := speed.raw_bandwidth_bps
    speed := speed }

/-- `BandwidthPool::periodic_usage_percent`.  `f64` in the source, embedded as an
exact rational; the early `return 0.0` guard when `max_periodic_bps == 0` is
kept verbatim. -/
def BandwidthPool.periodic_usage_percent (p : BandwidthPool) : ℚ :=
  if p.max_periodic_bps = 0 then 0
  else ((p.used_periodic_bps : ℚ) / (p.max_periodic_bps : ℚ)) * 100

/-- `BandwidthPool::available_periodic_bps`: `max.saturating_sub(used)`;
`Nat` subtraction is exactly `u64::saturating_sub` on the embedded range. -/
def BandwidthPool.available_periodic_bps (p : BandwidthPool) : Nat :=
  p.max_periodic_bps - p.used_periodic_bps

/-- `BandwidthPool::is_high_usage`: `periodic_usage_percent() > 80.0`. -/
def BandwidthPool.is_high_usage (p : BandwidthPool) : Bool :=
  decide (p.periodic_usage_percent > 80)

/-- `BandwidthPool::is_critical`: `periodic_usage_percent() > 95.0`. -/
def BandwidthPool.is_critical (p : BandwidthPool) : Bool :=
  decide (p.periodic_usage_percent > 95)

/-!
Rust `str` operations are embedded as functions on `List Char` (`String.data`):
`split('-').next()`, `strip_prefix("usb")`, `str::parse::<u8>`, `split` chunks,
`rfind`-and-slice and `starts_with`.
-/

/-- Model of Rust `s.split(c).next()`: the chunk before the first occurrence of
`c`, or the whole string when `c` is absent.  The `Split` iterator's first
`next()` call always returns `Some`, which this embedding makes explicit. -/
def split_first (c : Char) (l : List Char) : Option (List Char) :=
  some (l.takeWhile (fun x => x ≠ c))

/-- Model of Rust `s.strip_prefix("usb")`. -/
def strip_usb (l : List Char) : Option (List Char) :=
  match l with
  | 'u' :: 's' :: 'b' :: rest => some rest
  | _ => none

/-- Model of Rust `str::parse::<u8>`: an optional leading `+`, then one or more
ASCII digits, rejecting the empty digit string and values above `u8::MAX`. -/
def parse_u8 (l : List Char) : Option Nat :=
  let digits := match l with
    | '+' :: rest => rest
    | _ => l
  if digits.isEmpty then none
  else if digits.all (fun c => c.isDigit) then
    let v := digits.foldl (fun a c => a * 10 + (c.toNat - 48)) 0
    if v < 256 then some v else none
  else none

/-- Model of Rust `s.split(c)` collecting all chunks (used for `.nth(1)`). -/
def split_on_char (c : Char) : List Char → List (List Char)
  | [] => [[]]
  | x :: xs =>
    if x = c then [] :: split_on_char c xs
    else
      match split_on_char c xs with
      | [] => [[x]]
      | h :: t => (x :: h) :: t

/-- Model of Rust `s.rfind(c).map(|pos| s[..pos])`: the part of the string
strictly before the last occurrence of `c`, or `none` when `c` is absent. -/
def drop_from_last (c : Char) : List Char → Option (List Char)
  | [] => none
  | x :: xs =>
    match drop_from_last c xs with
    | some pre => some (x :: pre)
    | none => if x = c then some [] else none

/-- `DevicePath` from `src/model/topology.rs` (a newtype over `String`). -/
structure DevicePath where
  path : String
  deriving DecidableEq, Repr

/-- `DevicePath::parent`: drop the trailing `.N` after the last `.`, else
prepend `usb` to the part before the last `-`, else `None`. -/
def DevicePath.parent (p : DevicePath) : Option DevicePath :=
  match drop_from_last '.' p.path.data with
  | some pre => some ⟨String.mk pre⟩
  | none =>
    (drop_from_last '-' p.path.data).map
      (fun pre => ⟨String.mk ('u' :: 's' :: 'b' :: pre)⟩)

/-- `DevicePath::bus_num`:
`self.0.split('-').next().or_else(|| self.0.strip_prefix("usb")).and_then(|s| s.parse().ok())`.
The `or_else` closure is kept even though `split('-').next()` never returns
`None`, mirroring the source faithfully. -/
def DevicePath.bus_num (p : DevicePath) : Option Nat :=
  (Option.orElse (split_first '-' p.path.data)
    (fun _ => strip_usb p.path.data)).bind parse_u8

/-- `DevicePath::port_path`: `self.0.split('-').nth(1)`. -/
def DevicePath.port_path (p : DevicePath) : Option (List Char) :=
  (split_on_char '-' p.path.data).get? 1

/-- `DevicePath::depth`: `.map(|p| p.matches('.').count()).unwrap_or(0)`. -/
def DevicePath.depth (p : DevicePath) : Nat :=
  match p.port_path with
  | some l => l.count '.'
  | none => 0

/-- `DevicePath::is_root_hub`: `self.0.starts_with("usb")` (the source checks
only the prefix; it does not look at `-`). -/
def DevicePath.is_root_hub (p : DevicePath) : Bool :=
  ['u', 's', 'b'].isPrefixOf p.path.data

/-- The path grammar stated by the data model: `<bus>-<port>[.<port>]*` with a
numeric bus number and numeric port components (exactly one `-`). -/
def is_digit_seq (l : List Char) : Bool :=
  !l.isEmpty && l.all (fun c => c.isDigit)

/-- A path is well formed when it splits on `-` into exactly a digit sequence
and a `.`-separated chain of digit sequences. -/
def well_formed_path (p : DevicePath) : Bool :=
  match split_on_char '-' p.path.data with
  | [b, rest] => is_digit_seq b && (split_on_char '.' rest).all is_digit_seq
  | _ => false

/-- `PhysicalLocation` from `src/model/topology.rs`. -/
structure PhysicalLocation where
  dock : Bool
  panel : String
  horizontal_position : String
  vertical_position : String
  lid : Bool
  deriving DecidableEq, Repr

/-- `UsbDevice` from `src/model/topology.rs`. -/
structure UsbDevice where
  path : DevicePath
  speed : UsbSpeed
  vendor_id : Nat
  product_id : Nat
  manufacturer : Option String
  product : Option String
  serial : Option String
  device_class : Nat
  is_hub : Bool
  num_ports : Option Nat
  endpoints : List Endpoint
  physical_location : Option PhysicalLocation
  children : List DevicePath
  label : Option String
  usb_version : String
  num_interfaces : Nat
  max_power_ma : Nat
  is_configured : Bool
  deriving DecidableEq, Repr

/-- `UsbDevice::periodic_bandwidth_bps`: filter by `reserves_bandwidth`, map
`bandwidth_bps(self.speed)` (the device's own speed), sum. -/
def UsbDevice.periodic_bandwidth_bps (d : UsbDevice) : Nat :=
  ((d.endpoints.filter (fun ep => ep.transfer_type.reserves_bandwidth)).map
    (fun ep => ep.bandwidth_bps d.speed)).sum

/-- `ControllerId` from `src/model/topology.rs` (a newtype over `String`). -/
structure ControllerId where
  id : String
  deriving DecidableEq, Repr

/-- `UsbController` from `src/model/topology.rs`, restricted to the fields the
bus/controller discovery pass populates. -/
structure UsbController where
  id : ControllerId
  pci_address : String
  usb2_bus : Option Nat
  usb3_bus : Option Nat
  label : Option String
  deriving DecidableEq, Repr

/-- `UsbBus` from `src/model/topology.rs`; the `HashMap<DevicePath, UsbDevice>`
is embedded as an association list. -/
structure UsbBus where
  bus_num : Nat
  speed : UsbSpeed
  version : String
  num_ports : Nat
  devices : List (DevicePath × UsbDevice)
  controller_id : ControllerId
  deriving DecidableEq, Repr

/-- `UsbBus::periodic_bandwidth_used_bps`: flat sum over all values of the
device map. -/
def UsbBus.periodic_bandwidth_used_bps (b : UsbBus) : Nat :=
  (b.devices.map (fun kv => kv.2.periodic_bandwidth_bps)).sum

/-- `UsbBus::max_periodic_bandwidth_bps`. -/
def UsbBus.max_periodic_bandwidth_bps (b : UsbBus) : Nat :=
  b.speed.max_periodic_bandwidth_bps

/-- `UsbBus::periodic_usage_percent` (`f64` in the source, embedded as `ℚ`). -/
def UsbBus.periodic_usage_percent (b : UsbBus) : ℚ :=
  if b.max_periodic_bandwidth_bps = 0 then 0
  else ((b.periodic_bandwidth_used_bps : ℚ) / (b.max_periodic_bandwidth_bps : ℚ)) * 100

/-- `UsbBus::is_superspeed`. -/
def UsbBus.is_superspeed (b : UsbBus) : Bool :=
  b.speed.is_superspeed

/-- `UsbBus::device_count`. -/
def UsbBus.device_count (b : UsbBus) : Nat :=
  b.devices.length

/-- The devices of a bus whose path has depth 0
(`self.devices.values().filter(|d| d.path.depth() == 0)`). -/
def root_devices (b : UsbBus) : List UsbDevice :=
  (b.devices.map Prod.snd).filter (fun d => d.path.depth = 0)

/-- Length of the longest device-map key of a bus; used only to bound the
recursion depth of the tree-order walk. -/
def max_key_len (b : UsbBus) : Nat :=
  (b.devices.map (fun kv => kv.1.path.data.length)).foldr max 0

/-- `UsbBus::collect_devices_recursive`: push the device, then recurse into
each child path that resolves in the device map.  The extra `fuel` argument
bounds the recursion; `devices_tree_order` passes `max_key_len + 1`, which is
never exhausted on maps whose children lists strictly deepen the path (as the
hierarchy-wiring pass guarantees). -/
def collect_devices_recursive (b : UsbBus) : Nat → UsbDevice → List UsbDevice
  | 0, d => [d]
  | fuel + 1, d =>
    d :: (d.children.flatMap (fun cp =>
      match b.devices.lookup cp with
      | some child => collect_devices_recursive b fuel child
      | none => []))

/-- `UsbBus::devices_tree_order`: depth-0 devices sorted by path string, each
followed by its recursively collected subtree. -/
def UsbBus.devices_tree_order (b : UsbBus) : List UsbDevice :=
  let roots := (root_devices b).mergeSort (fun a b => a.path.path ≤ b.path.path)
  roots.flatMap (fun d => collect_devices_recursive b (max_key_len b + 1) d)

/-- Reachability along stored children lists: `Reaches b d x` holds when the
tree walk started at `d` can reach `x` by repeatedly following a child path
that resolves in the device map of `b`. -/
inductive Reaches (b : UsbBus) : UsbDevice → UsbDevice → Prop
  | refl (d : UsbDevice) : Reaches b d d
  | step (d c x : UsbDevice) (cp : DevicePath) :
      cp ∈ d.children → b.devices.lookup cp = some c → Reaches b c x →
      Reaches b d x

/-- A device is reachable when some depth-0 device of the bus reaches it. -/
def ReachableFromRoot (b : UsbBus) (x : UsbDevice) : Prop :=
  ∃ r, r ∈ root_devices b ∧ Reaches b r x

/-- `UsbTopology` from `src/model/topology.rs` (both `HashMap`s embedded as
association lists). -/
structure UsbTopology where
  controllers : List (ControllerId × UsbController)
  buses : List (Nat × UsbBus)
  deriving DecidableEq, Repr

/-- `HashMap::insert` on an association list: replace the value under an
existing key, otherwise append the pair. -/
def assoc_insert (m : List (Nat × UsbBus)) (k : Nat) (v : UsbBus) :
    List (Nat × UsbBus) :=
  if (m.lookup k).isSome then
    m.map (fun kv => if kv.1 = k then (k, v) else kv)
  else m ++ [(k, v)]

/-- One successfully parsed root-hub entry of the bus/controller discovery
pass: the parsed bus together with the controller id and pci address the
link-resolution hook returned for it. -/
structure RootHubEntry where
  bus_num : Nat
  bus : UsbBus
  controller_id : ControllerId
  pci_address : String
  deriving DecidableEq, Repr

/-- One iteration of the bus/controller discovery loop of
`SysfsParser::parse_topology` (first pass): `entry(id).or_insert_with(new
controller)`, then unconditionally store the bus number into the usb3 slot when
the bus is SuperSpeed and into the usb2 slot otherwise, then insert the bus. -/
def pass1_step (t : UsbTopology) (e : RootHubEntry) : UsbTopology :=
  let cid := e.controller_id
  let controllers :=
    if (t.controllers.lookup cid).isSome then t.controllers
    else
      t.controllers ++ [(cid,
        { id := cid
          pci_address := e.pci_address
          usb2_bus := none
          usb3_bus := none
          label := none })]
  let controllers := controllers.map (fun kv =>
    if kv.1 = cid then
      (kv.1,
        if e.bus.is_superspeed then { kv.2 with usb3_bus := some e.bus_num }
        else { kv.2 with usb2_bus := some e.bus_num })
    else kv)
  { t with
    controllers := controllers
    buses := assoc_insert t.buses e.bus_num e.bus }

/-- The bus/controller discovery pass over a list of successfully parsed
root-hub entries (entries that fail to parse are skipped by the source and are
therefore simply absent from the list). -/
def parse_topology_pass1 (entries : List RootHubEntry) : UsbTopology :=
  entries.foldl pass1_step { controllers := [], buses := [] }

/-- The body of the hierarchy-wiring insertion: append `child` to the children
list of the entry keyed `parent_path` unless already present
(`!parent.children.contains(&path)` then `push`). -/
def add_child (devices : List (DevicePath × UsbDevice)) (parent_path child : DevicePath) :
    List (DevicePath × UsbDevice) :=
  devices.map (fun kv =>
    if kv.1 = parent_path then
      (kv.1,
        if child ∈ kv.2.children then kv.2
        else { kv.2 with children := kv.2.children ++ [child] })
    else kv)

/-- One iteration of the hierarchy-wiring loop (third pass of
`SysfsParser::parse_topology`): compute the parent; skip when there is none,
when it is a root hub, or when it is not a device of the same bus. -/
def wire_step (devices : List (DevicePath × UsbDevice)) (path : DevicePath) :
    List (DevicePath × UsbDevice) :=
  match path.parent with
  | none => devices
  | some parent_path =>
    if parent_path.is_root_hub then devices
    else if (devices.lookup parent_path).isSome then
      add_child devices parent_path path
    else devices

/-- The hierarchy-wiring pass on one bus: walk the snapshot of the key list,
then sort every children list by path string. -/
def wire_bus (b : UsbBus) : UsbBus :=
  let paths := b.devices.map Prod.fst
  let devices := paths.foldl wire_step b.devices
  { b with
    devices := devices.map (fun kv =>
      (kv.1, { kv.2 with
        children := kv.2.children.mergeSort (fun a b => a.path ≤ b.path) })) }

/-- Sample interrupt endpoint: 64-byte packets, no multiplier bits, interval
code 8 (the worked example of the specification). -/
def ep_interrupt_64_8 : Endpoint :=
  { address := 0x81
    transfer_type := TransferType.Interrupt
    direction := Direction.In
    max_packet_size := 64
    b_interval := 8
    interval_str := "8ms" }

/-- Sample bulk endpoint. -/
def ep_bulk_512 : Endpoint :=
  { address := 0x02
    transfer_type := TransferType.Bulk
    direction := Direction.Out
    max_packet_size := 512
    b_interval := 0
    interval_str := "0ms" }

/-- Concrete device used by witnesses. -/
def mk_device (p : String) (speed : UsbSpeed) (eps : List Endpoint) : UsbDevice :=
  { path := ⟨p⟩
    speed := speed
    vendor_id := 0x1234
    product_id := 0x5678
    manufacturer := none
    product := none
    serial := none
    device_class := 0
    is_hub := false
    num_ports := none
    endpoints := eps
    physical_location := none
    children := []
    label := none
    usb_version := "2.00"
    num_interfaces := 1
    max_power_ma := 100
    is_configured := true }

/-- Concrete empty bus of a given speed, used by witnesses. -/
def mk_bus (n : Nat) (speed : UsbSpeed) (devs : List (DevicePath × UsbDevice)) : UsbBus :=
  { bus_num := n
    speed := speed
    version := "2.00"
    num_ports := 4
    devices := devs
    controller_id := ⟨"c"⟩ }

/-- First root-hub entry of the discovery counterexample: bus 1, Full speed,
controller id `c`, pci address `0000:00:01.0`. -/
def entry_bus1 : RootHubEntry :=
  { bus_num := 1, bus := mk_bus 1 UsbSpeed.Full []
    controller_id := ⟨"c"⟩, pci_address := "0000:00:01.0" }

/-- Second root-hub entry of the discovery counterexample: bus 2, also Full
speed, resolving to the same controller id `c` with a different pci address. -/
def entry_bus2 : RootHubEntry :=
  { bus_num := 2, bus := mk_bus 2 UsbSpeed.Full []
    controller_id := ⟨"c"⟩, pci_address := "0000:00:02.0" }

/-- The controller state after the discovery pass has processed only
`entry_bus1`. -/
def ctrl_c_after_bus1 : UsbController :=
  { id := ⟨"c"⟩
    pci_address := "0000:00:01.0"
    usb2_bus := some 1
    usb3_bus := none
    label := none }

/-- Bus used by the tree-order witness: `1-1` with child `1-1.1`, plus an
orphan `1-3.2` whose parent `1-3` is not in the map. -/
def wire_demo_bus : UsbBus :=
  mk_bus 1 UsbSpeed.High
    [ (⟨"1-1"⟩, mk_device "1-1" UsbSpeed.High [])
    , (⟨"1-1.1"⟩, mk_device "1-1.1" UsbSpeed.Low [])
    , (⟨"1-3.2"⟩, mk_device "1-3.2" UsbSpeed.Full []) ]

/-- Pool with zero maximum, used by the usage-percent witness. -/
def pool_zero : BandwidthPool :=
  { max_periodic_bps := 0
    used_periodic_bps := 7
    raw_bandwidth_bps := 0
    speed := UsbSpeed.Full }

/-! ### Helper lemmas -/

/-- The polling interval is always positive (at least 125µs). -/
theorem Endpoint.interval_us_pos (e : Endpoint) (s : UsbSpeed) :
    0 < e.interval_us s := by
  cases s <;> unfold Endpoint.interval_us <;> dsimp only <;> split <;>
    first
      | omega
      | (have h2 : 0 < 1 <<< min (e.b_interval - 1) 15 := by
          rw [Nat.one_shiftLeft]; exact pow_pos (by omega) _
         exact Nat.mul_pos h2 (by omega))

/-! ### Claims -/

/-- Claim C1: `bandwidth_bps` returns 0 for Control/Bulk endpoints regardless of
packet size and interval code; for Interrupt/Isochronous endpoints it equals
`base_packet_size * multiplier * 8 * 1_000_000 / interval_us` with truncating
integer division; and the 64-byte Interrupt endpoint with no multiplier bits and
interval code 8 yields exactly 64 000 bps at Full speed. -/
theorem C1_bandwidth_bps_spec :
    (∀ (e : Endpoint) (s : UsbSpeed),
      ((e.transfer_type = TransferType.Control ∨ e.transfer_type = TransferType.Bulk) →
        e.bandwidth_bps s = 0) ∧
      ((e.transfer_type = TransferType.Interrupt ∨
          e.transfer_type = TransferType.Isochronous) →
        e.bandwidth_bps s =
          e.base_packet_size * e.multiplier * 8 * 1000000 / e.interval_us s)) ∧
    ep_interrupt_64_8.bandwidth_bps UsbSpeed.Full = 64000 := by
  constructor
  · intro e s
    constructor
    · rintro (h | h) <;>
        simp [Endpoint.bandwidth_bps, TransferType.reserves_bandwidth, h]
    · have hpos := Endpoint.interval_us_pos e s
      rintro (h | h) <;>
        simp [Endpoint.bandwidth_bps, TransferType.reserves_bandwidth, h, hpos.ne']
  · decide

/-- Witness for C1: the concrete Bulk endpoint gets 0, and the concrete
Interrupt endpoint satisfies the arithmetic formula. -/
theorem C1_bandwidth_bps_spec_witness :
    (ep_bulk_512.transfer_type = TransferType.Control ∨
      ep_bulk_512.transfer_type = TransferType.Bulk) ∧
    ep_bulk_512.bandwidth_bps UsbSpeed.High = 0 ∧
    (ep_interrupt_64_8.transfer_type = TransferType.Interrupt ∨
      ep_interrupt_64_8.transfer_type = TransferType.Isochronous) ∧
    ep_interrupt_64_8.bandwidth_bps UsbSpeed.Full =
      ep_interrupt_64_8.base_packet_size * ep_interrupt_64_8.multiplier * 8 * 1000000 /
        ep_interrupt_64_8.interval_us UsbSpeed.Full :=
  ⟨Or.inr rfl,
   (C1_bandwidth_bps_spec.1 ep_bulk_512 UsbSpeed.High).1 (Or.inr rfl),
   Or.inl rfl,
   (C1_bandwidth_bps_spec.1 ep_interrupt_64_8 UsbSpeed.Full).2 (Or.inl rfl)⟩

/-- Claim C2: at Low/Full speed the interval code is milliseconds directly with
code 0 treated as 1; at High/Super/SuperPlus/SuperPlus2 speed the interval is
`2^(code-1) * 125`µs for codes 1..16, code 0 gives the minimum 125µs, and codes
above 16 clamp the exponent to 15. -/
theorem C2_interval_us_spec :
    ∀ (e : Endpoint) (s : UsbSpeed),
      ((s = UsbSpeed.Low ∨ s = UsbSpeed.Full) →
        e.interval_us s = (if e.b_interval = 0 then 1 else e.b_interval) * 1000) ∧
      ((s = UsbSpeed.High ∨ s = UsbSpeed.Super ∨ s = UsbSpeed.SuperPlus ∨
          s = UsbSpeed.SuperPlus2) →
        (e.b_interval = 0 → e.interval_us s = 125) ∧
        (1 ≤ e.b_interval → e.b_interval ≤ 16 →
          e.interval_us s = 2 ^ (e.b_interval - 1) * 125) ∧
        (16 < e.b_interval → e.interval_us s = 2 ^ 15 * 125)) := by
  intro e s
  constructor
  · rintro (rfl | rfl) <;> rfl
  · rintro (rfl | rfl | rfl | rfl) <;>
      refine ⟨fun h0 => by simp [Endpoint.interval_us, h0],
        fun h1 h16 => ?_, fun h17 => ?_⟩ <;>
      simp only [Endpoint.interval_us, if_neg (show ¬e.b_interval = 0 by omega),
        Nat.one_shiftLeft] <;>
      first
        | rw [show min (e.b_interval - 1) 15 = e.b_interval - 1 from by omega]
        | rw [show min (e.b_interval - 1) 15 = 15 from by omega]

/-- Witness for C2: interval code 8 at Full speed gives 8000µs via the
millisecond rule, and at High speed gives `2^7 * 125`µs via the exponent rule. -/
theorem C2_interval_us_spec_witness :
    (UsbSpeed.Full = UsbSpeed.Low ∨ UsbSpeed.Full = UsbSpeed.Full) ∧
    ep_interrupt_64_8.interval_us UsbSpeed.Full =
      (if ep_interrupt_64_8.b_interval = 0 then 1 else ep_interrupt_64_8.b_interval) * 1000 ∧
    1 ≤ ep_interrupt_64_8.b_interval ∧ ep_interrupt_64_8.b_interval ≤ 16 ∧
    ep_interrupt_64_8.interval_us UsbSpeed.High =
      2 ^ (ep_interrupt_64_8.b_interval - 1) * 125 :=
  ⟨Or.inr rfl,
   (C2_interval_us_spec ep_interrupt_64_8 UsbSpeed.Full).1 (Or.inr rfl),
   by decide, by decide,
   ((C2_interval_us_spec ep_interrupt_64_8 UsbSpeed.High).2 (Or.inl rfl)).2.1
     (by decide) (by decide)⟩

/-- Claim C6: the periodic reservation ceiling is 90% of the raw bandwidth for
Low/Full and 80% for High and all SuperSpeed variants, and the frame period is
1000µs for Low/Full and 125µs for every other class. -/
theorem C6_speed_constants :
    ∀ s : UsbSpeed,
      ((s = UsbSpeed.Low ∨ s = UsbSpeed.Full) →
        s.max_periodic_bandwidth_bps = s.raw_bandwidth_bps * 90 / 100 ∧
        s.frame_period_us = 1000) ∧
      ((s = UsbSpeed.High ∨ s = UsbSpeed.Super ∨ s = UsbSpeed.SuperPlus ∨
          s = UsbSpeed.SuperPlus2) →
        s.max_periodic_bandwidth_bps = s.raw_bandwidth_bps * 80 / 100 ∧
        s.frame_period_us = 125) := by
  intro s
  cases s <;> refine ⟨fun h => ?_, fun h => ?_⟩ <;>
    first
      | exact ⟨rfl, rfl⟩
      | exact absurd h (by decide)

/-- Witness for C6 at Low speed (90% arm) and High speed (80% arm). -/
theorem C6_speed_constants_witness :
    (UsbSpeed.Low = UsbSpeed.Low ∨ UsbSpeed.Low = UsbSpeed.Full) ∧
    (UsbSpeed.Low.max_periodic_bandwidth_bps =
        UsbSpeed.Low.raw_bandwidth_bps * 90 / 100 ∧
      UsbSpeed.Low.frame_period_us = 1000) ∧
    (UsbSpeed.High = UsbSpeed.High ∨ UsbSpeed.High = UsbSpeed.Super ∨
      UsbSpeed.High = UsbSpeed.SuperPlus ∨ UsbSpeed.High = UsbSpeed.SuperPlus2) ∧
    (UsbSpeed.High.max_periodic_bandwidth_bps =
        UsbSpeed.High.raw_bandwidth_bps * 80 / 100 ∧
      UsbSpeed.High.frame_period_us = 125) :=
  ⟨Or.inl rfl, (C6_speed_constants UsbSpeed.Low).1 (Or.inl rfl),
   Or.inl rfl, (C6_speed_constants UsbSpeed.High).2 (Or.inl rfl)⟩

/-- Claim C8: the transaction multiplier decoded from bits 12:11 of the
packet-size field always equals the raw two-bit value plus one (0 to 1, 1 to 2,
2 to 3 and the reserved raw value 3 to 4), with no rejection or failure path;
in particular a field with both bits set (raw 3) maps to 4. -/
theorem C8_multiplier_value_plus_one :
    (∀ e : Endpoint, e.multiplier = ((e.max_packet_size >>> 11) &&& 0x03) + 1) ∧
    Endpoint.multiplier { ep_interrupt_64_8 with max_packet_size := 0x1800 } = 4 := by
  constructor
  · intro e
    unfold Endpoint.multiplier
    by_cases h : (e.max_packet_size >>> 11) &&& 0x03 = 0 <;> simp [h]
  · decide

/-- A non-reserving endpoint contributes zero bandwidth. -/
theorem bandwidth_bps_eq_zero_of_not_reserves (e : Endpoint) (s : UsbSpeed)
    (h : e.transfer_type.reserves_bandwidth = false) : e.bandwidth_bps s = 0 := by
  simp [Endpoint.bandwidth_bps, h]

/-- Dropping non-reserving endpoints does not change the bandwidth sum, because
they contribute zero. -/
theorem sum_filter_reserves (eps : List Endpoint) (s : UsbSpeed) :
    ((eps.filter (fun ep => ep.transfer_type.reserves_bandwidth)).map
      (fun ep => ep.bandwidth_bps s)).sum =
      (eps.map (fun ep => ep.bandwidth_bps s)).sum := by
  induction eps with
  | nil => rfl
  | cons e t ih =>
    by_cases h : e.transfer_type.reserves_bandwidth
    · simp [List.filter_cons, h, ih]
    · have hz := bandwidth_bps_eq_zero_of_not_reserves e s (by simpa using h)
      simp [List.filter_cons, h, ih, hz]

/-- `reserves_bandwidth` holds exactly for Interrupt and Isochronous. -/
theorem reserves_bandwidth_iff (t : TransferType) :
    t.reserves_bandwidth =
      decide (t = TransferType.Interrupt ∨ t = TransferType.Isochronous) := by
  cases t <;> rfl

/-- Claim C3: a device's periodic bandwidth is the sum of `bandwidth_bps` over
its Interrupt/Isochronous endpoints, each evaluated at the device's own speed;
a bus's used periodic bandwidth is the flat sum over every device in its device
map (no per-branch apportioning), again at each device's own speed. -/
theorem C3_periodic_bandwidth_flat_sums :
    (∀ d : UsbDevice,
      d.periodic_bandwidth_bps =
        ((d.endpoints.filter (fun ep =>
            decide (ep.transfer_type = TransferType.Interrupt ∨
              ep.transfer_type = TransferType.Isochronous))).map
          (fun ep => ep.bandwidth_bps d.speed)).sum) ∧
    (∀ b : UsbBus,
      b.periodic_bandwidth_used_bps =
        (b.devices.map (fun kv =>
          (kv.2.endpoints.map (fun ep => ep.bandwidth_bps kv.2.speed)).sum)).sum) := by
  constructor
  · intro d
    have hp : (fun ep : Endpoint => ep.transfer_type.reserves_bandwidth) =
        (fun ep : Endpoint =>
          decide (ep.transfer_type = TransferType.Interrupt ∨
            ep.transfer_type = TransferType.Isochronous)) :=
      funext fun ep => reserves_bandwidth_iff _
    rw [UsbDevice.periodic_bandwidth_bps, hp]
  · intro b
    unfold UsbBus.periodic_bandwidth_used_bps
    congr 1
    apply List.map_congr_left
    intro kv _
    rw [UsbDevice.periodic_bandwidth_bps]
    exact sum_filter_reserves _ _

/-- Claim C7: `periodic_usage_percent` is total and returns 0 when the maximum
is 0 (guarded division); available bandwidth is the saturating difference and
never negative; high usage holds exactly above 80 and critical exactly above
95; and the bus-level query is the same computation on the bus's pool. -/
theorem C7_usage_percent_safety :
    (∀ p : BandwidthPool,
      (p.max_periodic_bps = 0 → p.periodic_usage_percent = 0) ∧
      ((p.available_periodic_bps : ℤ) =
        max 0 ((p.max_periodic_bps : ℤ) - (p.used_periodic_bps : ℤ))) ∧
      (0 : ℤ) ≤ (p.available_periodic_bps : ℤ) ∧
      (p.is_high_usage = true ↔ p.periodic_usage_percent > 80) ∧
      (p.is_critical = true ↔ p.periodic_usage_percent > 95)) ∧
    (∀ b : UsbBus,
      b.periodic_usage_percent =
        (BandwidthPool.with_usage b.speed b.periodic_bandwidth_used_bps).periodic_usage_percent) := by
  constructor
  · intro p
    refine ⟨fun h => by simp [BandwidthPool.periodic_usage_percent, h], ?_, ?_, ?_, ?_⟩
    · unfold BandwidthPool.available_periodic_bps
      omega
    · exact Int.natCast_nonneg _
    · simp [BandwidthPool.is_high_usage]
    · simp [BandwidthPool.is_critical]
  · intro b
    rfl

/-- Witness for C7: the pool with zero maximum and nonzero usage reports 0%. -/
theorem C7_usage_percent_safety_witness :
    pool_zero.max_periodic_bps = 0 ∧ pool_zero.periodic_usage_percent = 0 :=
  ⟨rfl, ((C7_usage_percent_safety.1 pool_zero).1) rfl⟩

/-- Claim C4 (code bug): for a device path the bus number is the integer before
the first `-`, and non-numeric content yields `none`; but for a root path
`usbN` the source's `strip_prefix("usb")` fallback is dead code, because
`split('-').next()` always returns `Some`, so `bus_num` returns `none` instead
of `N`.  Evaluated at the failing input `usb3`, also showing that the
unreachable fallback would have produced `some 3`. -/
theorem C4_bus_num_root_path_returns_none :
    DevicePath.bus_num ⟨"usb3"⟩ = none ∧
    (strip_usb "usb3".data).bind parse_u8 = some 3 ∧
    DevicePath.bus_num ⟨"3-1.2"⟩ = some 3 ∧
    DevicePath.bus_num ⟨"x-1"⟩ = none := by
  refine ⟨?_, ?_, ?_, ?_⟩ <;> decide

/-- Counterexample to C9 as stated: `usb3-1` starts with `usb` and contains a
`-`, so the claimed equivalence demands `is_root_hub` be false there, yet the
source returns true — it never inspects `-`. -/
theorem C9_counterexample_dash_path :
    ¬(DevicePath.is_root_hub ⟨"usb3-1"⟩ = true ↔
        (['u', 's', 'b'].isPrefixOf "usb3-1".data = true ∧
          "usb3-1".data.contains '-' = false)) := by
  decide

/-- Claim C9 (amended): `is_root_hub` returns true exactly when the path starts
with `usb`, regardless of whether the path contains a `-`. -/
theorem C9_is_root_hub_amended :
    ∀ p : DevicePath,
      p.is_root_hub = true ↔ ∃ rest, p.path.data = 'u' :: 's' :: 'b' :: rest := by
  intro p
  unfold DevicePath.is_root_hub
  rw [List.isPrefixOf_iff_prefix]
  constructor
  · rintro ⟨t, ht⟩
    exact ⟨t, ht.symm⟩
  · rintro ⟨t, ht⟩
    exact ⟨t, ht.symm⟩

/-- Looking up the updated key after mapping an update over an association
list yields the mapped value. -/
theorem lookup_map_update {α β : Type} [DecidableEq α] (m : List (α × β)) (k : α)
    (g : β → β) :
    (m.map (fun kv => if kv.1 = k then (kv.1, g kv.2) else kv)).lookup k =
      (m.lookup k).map g := by
  induction m with
  | nil => rfl
  | cons kv t ih =>
    rcases kv with ⟨a, b⟩
    by_cases h : a = k
    · subst h
      simp only [List.map_cons, eq_self_iff_true, if_true]
      simp [List.lookup, ih]
    · simp only [List.map_cons]
      rw [if_neg h]
      simp [List.lookup, beq_false_of_ne (Ne.symm h), ih]

/-- Looking up any other key after mapping an update over an association list
is unchanged. -/
theorem lookup_map_update_ne {α β : Type} [DecidableEq α] (m : List (α × β))
    (k k' : α) (g : β → β) (hne : k' ≠ k) :
    (m.map (fun kv => if kv.1 = k then (kv.1, g kv.2) else kv)).lookup k' =
      m.lookup k' := by
  induction m with
  | nil => rfl
  | cons kv t ih =>
    rcases kv with ⟨a, b⟩
    by_cases h : a = k
    · subst h
      simp only [List.map_cons, eq_self_iff_true, if_true]
      simp [List.lookup, beq_false_of_ne hne, ih]
    · simp only [List.map_cons]
      rw [if_neg h]
      by_cases h2 : k' = a
      · subst h2
        simp [List.lookup]
      · simp [List.lookup, beq_false_of_ne h2, ih]

/-- Counterexample to C5 as stated: two Full-speed root hubs resolve to the
same controller id `c`; after the first entry the usb2 slot holds bus 1, after
the second it has been overwritten to bus 2 even though it was populated — only
the first-seen pci address survives. -/
theorem C5_counterexample_slot_overwritten :
    ((parse_topology_pass1 [entry_bus1]).controllers.lookup ⟨"c"⟩).map
        (fun c => c.usb2_bus) = some (some 1) ∧
    ((parse_topology_pass1 [entry_bus1, entry_bus2]).controllers.lookup ⟨"c"⟩).map
        (fun c => c.usb2_bus) = some (some 2) ∧
    ((parse_topology_pass1 [entry_bus1, entry_bus2]).controllers.lookup ⟨"c"⟩).map
        (fun c => c.pci_address) = some "0000:00:01.0" := by
  refine ⟨?_, ?_, ?_⟩ <;> decide

/-- Claim C5 (amended): when a root hub resolves to an already-seen controller
id, the stored pci address, label and id are preserved (first seen wins) and
the other speed-class slot is untouched; however the slot matching this bus's
speed class is set to this bus number unconditionally — overwriting it even
when already populated — and controllers under every other id are untouched. -/
theorem C5_controller_update_amended :
    ∀ (t : UsbTopology) (e : RootHubEntry) (c : UsbController),
      t.controllers.lookup e.controller_id = some c →
      ∃ c', (pass1_step t e).controllers.lookup e.controller_id = some c' ∧
        c'.pci_address = c.pci_address ∧
        c'.label = c.label ∧
        c'.id = c.id ∧
        (if e.bus.is_superspeed then
          c'.usb3_bus = some e.bus_num ∧ c'.usb2_bus = c.usb2_bus
         else
          c'.usb2_bus = some e.bus_num ∧ c'.usb3_bus = c.usb3_bus) ∧
        (∀ k, k ≠ e.controller_id →
          (pass1_step t e).controllers.lookup k = t.controllers.lookup k) := by
  intro t e c hc
  have hsome : (t.controllers.lookup e.controller_id).isSome = true := by
    simp [hc]
  refine ⟨if e.bus.is_superspeed then { c with usb3_bus := some e.bus_num }
          else { c with usb2_bus := some e.bus_num }, ?_, ?_, ?_, ?_, ?_, ?_⟩
  · unfold pass1_step
    dsimp only
    rw [if_pos hsome]
    have h := lookup_map_update t.controllers e.controller_id
      (fun v => if e.bus.is_superspeed then { v with usb3_bus := some e.bus_num }
                else { v with usb2_bus := some e.bus_num })
    rw [hc] at h
    exact h
  · by_cases hss : e.bus.is_superspeed <;> simp [hss]
  · by_cases hss : e.bus.is_superspeed <;> simp [hss]
  · by_cases hss : e.bus.is_superspeed <;> simp [hss]
  · by_cases hss : e.bus.is_superspeed <;> simp [hss]
  · intro k hk
    unfold pass1_step
    dsimp only
    rw [if_pos hsome]
    exact lookup_map_update_ne t.controllers e.controller_id k
      (fun v => if e.bus.is_superspeed then { v with usb3_bus := some e.bus_num }
                else { v with usb2_bus := some e.bus_num }) hk

/-- Witness for the amended C5 at the concrete topology that has already seen
controller `c` through `entry_bus1`, processing `entry_bus2`. -/
theorem C5_controller_update_amended_witness :
    (parse_topology_pass1 [entry_bus1]).controllers.lookup entry_bus2.controller_id =
      some ctrl_c_after_bus1 ∧
    (∃ c', (pass1_step (parse_topology_pass1 [entry_bus1]) entry_bus2).controllers.lookup
          entry_bus2.controller_id = some c' ∧
      c'.pci_address = ctrl_c_after_bus1.pci_address ∧
      c'.label = ctrl_c_after_bus1.label ∧
      c'.id = ctrl_c_after_bus1.id ∧
      (if entry_bus2.bus.is_superspeed then
        c'.usb3_bus = some entry_bus2.bus_num ∧
          c'.usb2_bus = ctrl_c_after_bus1.usb2_bus
       else
        c'.usb2_bus = some entry_bus2.bus_num ∧
          c'.usb3_bus = ctrl_c_after_bus1.usb3_bus) ∧
      (∀ k, k ≠ entry_bus2.controller_id →
        (pass1_step (parse_topology_pass1 [entry_bus1]) entry_bus2).controllers.lookup k =
          (parse_topology_pass1 [entry_bus1]).controllers.lookup k)) :=
  ⟨by decide,
   C5_controller_update_amended (parse_topology_pass1 [entry_bus1]) entry_bus2
     ctrl_c_after_bus1 (by decide)⟩

/-- Every member of a list of naturals is bounded by its `foldr max 0`. -/
theorem le_foldr_max (l : List Nat) (x : Nat) (h : x ∈ l) : x ≤ l.foldr max 0 := by
  induction l with
  | nil => cases h
  | cons a t ih =>
    rcases List.mem_cons.mp h with rfl | h2
    · exact le_max_left _ _
    · exact le_trans (ih h2) (le_max_right _ _)

/-- Every key of a bus's device map has length at most `max_key_len`. -/
theorem key_len_le_max (b : UsbBus) {kv : DevicePath × UsbDevice}
    (h : kv ∈ b.devices) : kv.1.path.data.length ≤ max_key_len b :=
  le_foldr_max _ _ (List.mem_map_of_mem _ h)

/-- A successful association-list lookup exhibits a member pair. -/
theorem mem_of_lookup_eq_some {α β : Type} [DecidableEq α] :
    ∀ {m : List (α × β)} {k : α} {v : β}, m.lookup k = some v → (k, v) ∈ m := by
  intro m
  induction m with
  | nil => intro k v h; cases h
  | cons kv t ih =>
    intro k v h
    rcases kv with ⟨a, b⟩
    by_cases hk : k = a
    · subst hk
      simp [List.lookup] at h
      subst h
      exact List.mem_cons_self _ _
    · simp [List.lookup, beq_false_of_ne hk] at h
      exact List.mem_cons_of_mem _ (ih h)

/-- `split_on_char` never returns the empty list of chunks. -/
theorem split_on_char_ne_nil (c : Char) : ∀ l : List Char, split_on_char c l ≠ [] := by
  intro l
  cases l with
  | nil => simp [split_on_char]
  | cons x xs =>
    unfold split_on_char
    by_cases hx : x = c
    · rw [if_pos hx]; simp
    · rw [if_neg hx]
      cases hs : split_on_char c xs <;> simp

/-- A single chunk means the separator is absent and the chunk is the input. -/
theorem split_on_char_one {c : Char} : ∀ {l r : List Char},
    split_on_char c l = [r] → l = r := by
  intro l
  induction l with
  | nil =>
    intro r h
    simp [split_on_char] at h
    exact h.symm
  | cons x xs ih =>
    intro r h
    unfold split_on_char at h
    by_cases hx : x = c
    · rw [if_pos hx] at h
      injection h with h1 h2
      exact absurd h2 (split_on_char_ne_nil c xs)
    · rw [if_neg hx] at h
      cases hs : split_on_char c xs with
      | nil => exact absurd hs (split_on_char_ne_nil c xs)
      | cons hh tt =>
        rw [hs] at h
        injection h with h1 h2
        rw [← h1, ih (by rw [hs, h2])]

/-- Exactly two chunks decompose the input around a single separator. -/
theorem split_on_char_two {c : Char} : ∀ {l b rest : List Char},
    split_on_char c l = [b, rest] → l = b ++ c :: rest := by
  intro l
  induction l with
  | nil =>
    intro b rest h
    simp [split_on_char] at h
  | cons x xs ih =>
    intro b rest h
    unfold split_on_char at h
    by_cases hx : x = c
    · rw [if_pos hx] at h
      injection h with h1 h2
      subst hx
      rw [← h1, split_on_char_one h2]
      simp
    · rw [if_neg hx] at h
      cases hs : split_on_char c xs with
      | nil => exact absurd hs (split_on_char_ne_nil c xs)
      | cons hh tt =>
        rw [hs] at h
        injection h with h1 h2
        have hxs : xs = hh ++ c :: rest := ih (by rw [hs, h2])
        rw [← h1, hxs]
        simp

/-- The prefix before the last occurrence is strictly shorter than the input. -/
theorem drop_from_last_length {c : Char} : ∀ {l pre : List Char},
    drop_from_last c l = some pre → pre.length < l.length := by
  intro l
  induction l with
  | nil => intro pre h; cases h
  | cons x xs ih =>
    intro pre h
    unfold drop_from_last at h
    cases hd : drop_from_last c xs with
    | some pre2 =>
      rw [hd] at h
      have h2 := Option.some.inj h
      subst h2
      have := ih hd
      simp only [List.length_cons]
      omega
    | none =>
      rw [hd] at h
      by_cases hx : x = c
      · rw [if_pos hx] at h
        have h2 := Option.some.inj h
        subst h2
        simp
      · rw [if_neg hx] at h
        cases h

/-- A successful `drop_from_last` means the character occurs in the input. -/
theorem mem_of_drop_from_last_eq_some {c : Char} : ∀ {l pre : List Char},
    drop_from_last c l = some pre → c ∈ l := by
  intro l
  induction l with
  | nil => intro pre h; cases h
  | cons x xs ih =>
    intro pre h
    unfold drop_from_last at h
    cases hd : drop_from_last c xs with
    | some pre2 => exact List.mem_cons_of_mem _ (ih hd)
    | none =>
      rw [hd] at h
      by_cases hx : x = c
      · subst hx
        exact List.mem_cons_self _ _
      · rw [if_neg hx] at h
        cases h

/-- A digit sequence cannot contain `.`. -/
theorem not_dot_mem_of_digit_seq {b : List Char} (h : is_digit_seq b = true) :
    '.' ∉ b := by
  intro hin
  unfold is_digit_seq at h
  simp only [Bool.and_eq_true, List.all_eq_true] at h
  exact absurd (h.2 '.' hin) (by decide)

/-- A parent that is not a root hub comes from the `.`-dropping branch of
`DevicePath::parent` (the `-` branch always yields `usb…`, a root hub). -/
theorem parent_not_root_hub_from_dot {p pp : DevicePath}
    (hp : p.parent = some pp) (hroot : pp.is_root_hub = false) :
    ∃ pre, drop_from_last '.' p.path.data = some pre ∧ pp = ⟨String.mk pre⟩ := by
  unfold DevicePath.parent at hp
  cases hd : drop_from_last '.' p.path.data with
  | some pre =>
    rw [hd] at hp
    exact ⟨pre, rfl, (Option.some.inj hp).symm⟩
  | none =>
    rw [hd] at hp
    cases hd2 : drop_from_last '-' p.path.data with
    | none => rw [hd2] at hp; cases hp
    | some pre2 =>
      rw [hd2] at hp
      have he : pp = ⟨String.mk ('u' :: 's' :: 'b' :: pre2)⟩ :=
        (Option.some.inj hp).symm
      rw [he] at hroot
      simp [DevicePath.is_root_hub, List.isPrefixOf] at hroot

/-- On a grammatical path, a non-root-hub parent forces a nonzero depth: the
path must contain a `.` after the `-`, so the port chain has at least one dot. -/
theorem depth_ne_zero_of_parent_not_root {p pp : DevicePath}
    (hwf : well_formed_path p = true) (hp : p.parent = some pp)
    (hroot : pp.is_root_hub = false) : p.depth ≠ 0 := by
  obtain ⟨pre, hdrop, _⟩ := parent_not_root_hub_from_dot hp hroot
  have hdot : '.' ∈ p.path.data := mem_of_drop_from_last_eq_some hdrop
  unfold well_formed_path at hwf
  cases hsp : split_on_char '-' p.path.data with
  | nil => rw [hsp] at hwf; cases hwf
  | cons b t =>
    cases t with
    | nil => rw [hsp] at hwf; cases hwf
    | cons rest t2 =>
      cases t2 with
      | cons u t3 => rw [hsp] at hwf; cases hwf
      | nil =>
        rw [hsp] at hwf
        simp only [Bool.and_eq_true] at hwf
        have hl := split_on_char_two hsp
        have hb : '.' ∉ b := not_dot_mem_of_digit_seq hwf.1
        have hrest : '.' ∈ rest := by
          rw [hl] at hdot
          rcases List.mem_append.mp hdot with h | h
          · exact absurd h hb
          · rcases List.mem_cons.mp h with h | h
            · exact absurd h (by decide)
            · exact h
        unfold DevicePath.depth DevicePath.port_path
        rw [hsp]
        have hc : 0 < rest.count '.' := List.count_pos_iff.mpr hrest
        simp only [List.get?]
        omega

/-- Everything the tree walk enumerates is reachable, for any fuel. -/
theorem reaches_of_mem_collect (b : UsbBus) :
    ∀ (fuel : Nat) (d x : UsbDevice),
      x ∈ collect_devices_recursive b fuel d → Reaches b d x := by
  intro fuel
  induction fuel with
  | zero =>
    intro d x hx
    simp only [collect_devices_recursive] at hx
    cases List.mem_singleton.mp hx
    exact Reaches.refl d
  | succ fuel ih =>
    intro d x hx
    simp only [collect_devices_recursive] at hx
    rcases List.mem_cons.mp hx with rfl | hx2
    · exact Reaches.refl x
    · obtain ⟨cp, hcp, hx3⟩ := List.mem_flatMap.mp hx2
      cases hlk : b.devices.lookup cp with
      | none => rw [hlk] at hx3; cases hx3
      | some c =>
        rw [hlk] at hx3
        exact Reaches.step d c x cp hcp hlk (ih c x hx3)

/-- With consistent keys, deepening children lists and enough fuel, the tree
walk enumerates every reachable device. -/
theorem mem_collect_of_reaches (b : UsbBus)
    (hcon : ∀ kv ∈ b.devices, kv.2.path = kv.1)
    (hdeep : ∀ kv ∈ b.devices, ∀ cp ∈ kv.2.children,
      kv.1.path.data.length < cp.path.data.length)
    {d x : UsbDevice} (hr : Reaches b d x) :
    ∀ fuel : Nat, d ∈ b.devices.map Prod.snd →
      max_key_len b + 1 ≤ fuel + d.path.path.data.length →
      x ∈ collect_devices_recursive b fuel d := by
  induction hr with
  | refl d =>
    intro fuel _ _
    cases fuel with
    | zero => exact List.mem_singleton.mpr rfl
    | succ g => exact List.mem_cons_self _ _
  | step d c x cp hcp hlk hr2 ih =>
    intro fuel hd hf
    obtain ⟨kv, hkv, hsnd⟩ := List.mem_map.mp hd
    have hdpath : d.path = kv.1 := by rw [← hsnd]; exact hcon kv hkv
    have hdlen : d.path.path.data.length ≤ max_key_len b := by
      rw [hdpath]; exact key_len_le_max b hkv
    cases fuel with
    | zero => omega
    | succ g =>
      have hmemc : (cp, c) ∈ b.devices := mem_of_lookup_eq_some hlk
      have hcpath : c.path = cp := hcon _ hmemc
      have hcpmem : cp ∈ kv.2.children := by rw [hsnd]; exact hcp
      have hlt : d.path.path.data.length < cp.path.data.length := by
        rw [hdpath]; exact hdeep kv hkv cp hcpmem
      have hclen : cp.path.data.length ≤ max_key_len b := key_len_le_max b hmemc
      have hcval : c ∈ b.devices.map Prod.snd := List.mem_map_of_mem _ hmemc
      simp only [collect_devices_recursive]
      refine List.mem_cons_of_mem _ (List.mem_flatMap.mpr ⟨cp, hcp, ?_⟩)
      rw [hlk]
      refine ih g hcval ?_
      rw [hcpath]
      omega

/-- Membership in `devices_tree_order` coincides with reachability from the
depth-0 devices, on buses with consistent keys and deepening children. -/
theorem mem_tree_order_iff (b : UsbBus)
    (hcon : ∀ kv ∈ b.devices, kv.2.path = kv.1)
    (hdeep : ∀ kv ∈ b.devices, ∀ cp ∈ kv.2.children,
      kv.1.path.data.length < cp.path.data.length) :
    ∀ x, x ∈ b.devices_tree_order ↔ ReachableFromRoot b x := by
  intro x
  simp only [UsbBus.devices_tree_order]
  constructor
  · intro hx
    obtain ⟨r, hr, hx2⟩ := List.mem_flatMap.mp hx
    have hrmem : r ∈ root_devices b := (List.mergeSort_perm _ _).mem_iff.mp hr
    exact ⟨r, hrmem, reaches_of_mem_collect b _ r x hx2⟩
  · rintro ⟨r, hrmem, hr2⟩
    refine List.mem_flatMap.mpr ⟨r, (List.mergeSort_perm _ _).mem_iff.mpr hrmem, ?_⟩
    have hrval : r ∈ b.devices.map Prod.snd := List.mem_of_mem_filter hrmem
    exact mem_collect_of_reaches b hcon hdeep hr2 _ hrval (by omega)

/-- One wiring step never changes the key list. -/
theorem wire_step_map_fst (devices : List (DevicePath × UsbDevice)) (p : DevicePath) :
    (wire_step devices p).map Prod.fst = devices.map Prod.fst := by
  unfold wire_step
  cases hp : p.parent with
  | none => rfl
  | some pp =>
    dsimp only
    by_cases hroot : pp.is_root_hub = true
    · rw [if_pos hroot]
    · rw [if_neg hroot]
      by_cases hlk : (devices.lookup pp).isSome = true
      · rw [if_pos hlk]
        unfold add_child
        rw [List.map_map]
        apply List.map_congr_left
        intro kv _
        by_cases h : kv.1 = pp <;> simp [h]
      · rw [if_neg hlk]

/-- A property of the device list preserved by each wiring step is preserved
by the whole wiring fold. -/
theorem foldl_wire_inv {P : List (DevicePath × UsbDevice) → Prop}
    (hstep : ∀ m p, P m → P (wire_step m p)) :
    ∀ (ps : List DevicePath) (m : List (DevicePath × UsbDevice)),
      P m → P (ps.foldl wire_step m) := by
  intro ps
  induction ps with
  | nil => intro m h; exact h
  | cons p t ih => intro m h; exact ih _ (hstep m p h)

/-- The wiring fold never changes the key list. -/
theorem foldl_wire_map_fst (ps : List DevicePath)
    (devices : List (DevicePath × UsbDevice)) :
    (ps.foldl wire_step devices).map Prod.fst = devices.map Prod.fst := by
  induction ps generalizing devices with
  | nil => rfl
  | cons p t ih => rw [List.foldl_cons, ih, wire_step_map_fst]

/-- One wiring step never changes a value's `path` field. -/
theorem wire_step_path_inv (devices : List (DevicePath × UsbDevice)) (p : DevicePath)
    (h : ∀ kv ∈ devices, kv.2.path = kv.1) :
    ∀ kv ∈ wire_step devices p, kv.2.path = kv.1 := by
  unfold wire_step
  cases hp : p.parent with
  | none => exact h
  | some pp =>
    dsimp only
    by_cases hroot : pp.is_root_hub = true
    · rw [if_pos hroot]; exact h
    · rw [if_neg hroot]
      by_cases hlk : (devices.lookup pp).isSome = true
      · rw [if_pos hlk]
        intro kv hkv
        unfold add_child at hkv
        obtain ⟨kv0, hkv0, heq⟩ := List.mem_map.mp hkv
        by_cases hk : kv0.1 = pp
        · rw [if_pos hk] at heq
          subst heq
          by_cases hpc : p ∈ kv0.2.children
          · rw [if_pos hpc]
            exact h kv0 hkv0
          · rw [if_neg hpc]
            exact h kv0 hkv0
        · rw [if_neg hk] at heq
          subst heq
          exact h kv0 hkv0
      · rw [if_neg hlk]; exact h

/-- One wiring step preserves the children invariant: every stored child path
has the entry's key as its derived parent, and that key is not a root hub. -/
theorem wire_step_children_inv (devices : List (DevicePath × UsbDevice)) (p : DevicePath)
    (hinv : ∀ kv ∈ devices, ∀ cp ∈ kv.2.children,
      cp.parent = some kv.1 ∧ kv.1.is_root_hub = false) :
    ∀ kv ∈ wire_step devices p, ∀ cp ∈ kv.2.children,
      cp.parent = some kv.1 ∧ kv.1.is_root_hub = false := by
  unfold wire_step
  cases hp : p.parent with
  | none => exact hinv
  | some pp =>
    dsimp only
    by_cases hroot : pp.is_root_hub = true
    · rw [if_pos hroot]; exact hinv
    · rw [if_neg hroot]
      by_cases hlk : (devices.lookup pp).isSome = true
      · rw [if_pos hlk]
        intro kv hkv cp hcp
        unfold add_child at hkv
        obtain ⟨kv0, hkv0, heq⟩ := List.mem_map.mp hkv
        by_cases hk : kv0.1 = pp
        · rw [if_pos hk] at heq
          subst heq
          by_cases hpc : p ∈ kv0.2.children
          · rw [if_pos hpc] at hcp
            exact hinv kv0 hkv0 cp hcp
          · rw [if_neg hpc] at hcp
            rcases List.mem_append.mp hcp with hcp2 | hcp2
            · exact hinv kv0 hkv0 cp hcp2
            · have hcpp : cp = p := List.mem_singleton.mp hcp2
              subst hcpp
              refine ⟨by rw [hp, hk], ?_⟩
              rw [hk]
              exact Bool.of_not_eq_true hroot
        · rw [if_neg hk] at heq
          subst heq
          exact hinv kv0 hkv0 cp hcp
      · rw [if_neg hlk]; exact hinv

/-- The wiring pass never changes the key list of the bus. -/
theorem wire_bus_map_fst (b : UsbBus) :
    (wire_bus b).devices.map Prod.fst = b.devices.map Prod.fst := by
  unfold wire_bus
  dsimp only
  rw [List.map_map]
  have h : (Prod.fst ∘ fun kv : DevicePath × UsbDevice =>
      (kv.1, { kv.2 with
        children := kv.2.children.mergeSort (fun a b => a.path ≤ b.path) })) =
      Prod.fst := by
    funext kv
    rfl
  rw [h, foldl_wire_map_fst]

/-- The wiring pass never changes a value's `path` field. -/
theorem wire_bus_path_inv (b : UsbBus) (h : ∀ kv ∈ b.devices, kv.2.path = kv.1) :
    ∀ kv ∈ (wire_bus b).devices, kv.2.path = kv.1 := by
  unfold wire_bus
  dsimp only
  intro kv hkv
  obtain ⟨kv0, hkv0, heq⟩ := List.mem_map.mp hkv
  subst heq
  exact foldl_wire_inv (P := fun m => ∀ kv ∈ m, kv.2.path = kv.1)
    wire_step_path_inv _ _ h kv0 hkv0

/-- After wiring a bus whose children lists start empty, every stored child
path has the entry's key as its derived parent, and that key is never a root
hub. -/
theorem wire_bus_children_inv (b : UsbBus)
    (hch : ∀ kv ∈ b.devices, kv.2.children = []) :
    ∀ kv ∈ (wire_bus b).devices, ∀ cp ∈ kv.2.children,
      cp.parent = some kv.1 ∧ kv.1.is_root_hub = false := by
  unfold wire_bus
  dsimp only
  intro kv hkv cp hcp
  obtain ⟨kv0, hkv0, heq⟩ := List.mem_map.mp hkv
  subst heq
  have hcp0 : cp ∈ kv0.2.children := (List.mergeSort_perm _ _).mem_iff.mp hcp
  have hbase : ∀ kv ∈ b.devices, ∀ cp ∈ kv.2.children,
      cp.parent = some kv.1 ∧ kv.1.is_root_hub = false := by
    intro kv hkv cp hcp
    rw [hch kv hkv] at hcp
    cases hcp
  exact foldl_wire_inv (P := fun m => ∀ kv ∈ m, ∀ cp ∈ kv.2.children,
      cp.parent = some kv.1 ∧ kv.1.is_root_hub = false)
    wire_step_children_inv _ _ hbase kv0 hkv0 cp hcp0

/-- The children invariant forces children paths to be strictly longer than
their parent's key: a non-root-hub parent is the child minus its last `.N`. -/
theorem children_deepen_of_inv (b : UsbBus)
    (hinv : ∀ kv ∈ b.devices, ∀ cp ∈ kv.2.children,
      cp.parent = some kv.1 ∧ kv.1.is_root_hub = false) :
    ∀ kv ∈ b.devices, ∀ cp ∈ kv.2.children,
      kv.1.path.data.length < cp.path.data.length := by
  intro kv hkv cp hcp
  obtain ⟨hpar, hroot⟩ := hinv kv hkv cp hcp
  obtain ⟨pre, hdrop, hpp⟩ := parent_not_root_hub_from_dot hpar hroot
  rw [hpp]
  exact drop_from_last_length hdrop

/-- A reachable device is either the start itself or the target of some stored
child edge that resolves in the map. -/
theorem reaches_last_edge (b : UsbBus) {r x : UsbDevice} (hr : Reaches b r x) :
    r ∈ b.devices.map Prod.snd →
    (x = r ∨ ∃ kv ∈ b.devices, ∃ cp ∈ kv.2.children,
      b.devices.lookup cp = some x) := by
  induction hr with
  | refl d => intro _; exact Or.inl rfl
  | step d c x cp hcp hlk hr2 ih =>
    intro hd
    have hcval : c ∈ b.devices.map Prod.snd :=
      List.mem_map_of_mem _ (mem_of_lookup_eq_some hlk)
    rcases ih hcval with rfl | hedge
    · obtain ⟨kv, hkv, hsnd⟩ := List.mem_map.mp hd
      exact Or.inr ⟨kv, hkv, cp, by rw [hsnd]; exact hcp, hlk⟩
    · exact Or.inr hedge

/-- Claim C10: on a wired bus (keys consistent with stored paths, children
lists built by the hierarchy-wiring pass from initially empty lists, keys
matching the path grammar), `devices_tree_order` yields exactly the devices
reachable from the depth-0 devices by recursively following stored children
lists; consequently a device whose derived parent is neither a root hub nor
present in the map is omitted from the iteration even though it sits in the
device map that `device_count` measures. -/
theorem C10_tree_order_reachable (b0 : UsbBus)
    (hpk : ∀ kv ∈ b0.devices, kv.2.path = kv.1)
    (hch : ∀ kv ∈ b0.devices, kv.2.children = [])
    (hwf : ∀ kv ∈ b0.devices, well_formed_path kv.1 = true) :
    (∀ x, x ∈ (wire_bus b0).devices_tree_order ↔
      ReachableFromRoot (wire_bus b0) x) ∧
    (∀ p pp d, (p, d) ∈ (wire_bus b0).devices → p.parent = some pp →
      pp.is_root_hub = false → pp ∉ (wire_bus b0).devices.map Prod.fst →
      d ∉ (wire_bus b0).devices_tree_order ∧
      d ∈ (wire_bus b0).devices.map Prod.snd ∧
      (wire_bus b0).device_count = (wire_bus b0).devices.length) := by
  have hcon := wire_bus_path_inv b0 hpk
  have hinv := wire_bus_children_inv b0 hch
  have hdeep := children_deepen_of_inv (wire_bus b0) hinv
  have hiff := mem_tree_order_iff (wire_bus b0) hcon hdeep
  refine ⟨hiff, ?_⟩
  intro p pp d hmem hpar hroot hnot
  refine ⟨?_, List.mem_map_of_mem _ hmem, rfl⟩
  intro htree
  obtain ⟨r, hrmem, hreach⟩ := (hiff d).mp htree
  have hrval : r ∈ (wire_bus b0).devices.map Prod.snd :=
    List.mem_of_mem_filter hrmem
  have hdp : d.path = p := hcon (p, d) hmem
  rcases reaches_last_edge (wire_bus b0) hreach hrval with heq | hedge
  · have h0 : r.path.depth = 0 := by
      have h1 := hrmem
      unfold root_devices at h1
      have h2 := List.of_mem_filter h1
      simp only [decide_eq_true_eq] at h2
      exact h2
    have hkeys : p ∈ (wire_bus b0).devices.map Prod.fst :=
      List.mem_map_of_mem _ hmem
    rw [wire_bus_map_fst] at hkeys
    obtain ⟨kv0, hkv0, hk0⟩ := List.mem_map.mp hkeys
    have hwfp : well_formed_path p = true := by
      rw [← hk0]; exact hwf kv0 hkv0
    apply depth_ne_zero_of_parent_not_root hwfp hpar hroot
    rw [← hdp, heq]
    exact h0
  · obtain ⟨kv, hkv, cp, hcp, hlk⟩ := hedge
    obtain ⟨hcpar, _⟩ := hinv kv hkv cp hcp
    have hmemc : (cp, d) ∈ (wire_bus b0).devices := mem_of_lookup_eq_some hlk
    have hdcp : d.path = cp := hcon (cp, d) hmemc
    have hcpp : cp = p := by rw [← hdcp, hdp]
    rw [hcpp, hpar] at hcpar
    have hppkv : pp = kv.1 := Option.some.inj hcpar
    rw [hppkv] at hnot
    exact hnot (List.mem_map_of_mem _ hkv)

/-- Witness for C10: the three-device bus whose `1-3.2` entry is an orphan
(its parent `1-3` is absent) satisfies all hypotheses, so the equivalence and
the omission consequence hold on it. -/
theorem C10_tree_order_reachable_witness :
    (∀ kv ∈ wire_demo_bus.devices, kv.2.path = kv.1) ∧
    (∀ kv ∈ wire_demo_bus.devices, kv.2.children = []) ∧
    (∀ kv ∈ wire_demo_bus.devices, well_formed_path kv.1 = true) ∧
    ((∀ x, x ∈ (wire_bus wire_demo_bus).devices_tree_order ↔
        ReachableFromRoot (wire_bus wire_demo_bus) x) ∧
      (∀ p pp d, (p, d) ∈ (wire_bus wire_demo_bus).devices →
        p.parent = some pp → pp.is_root_hub = false →
        pp ∉ (wire_bus wire_demo_bus).devices.map Prod.fst →
        d ∉ (wire_bus wire_demo_bus).devices_tree_order ∧
        d ∈ (wire_bus wire_demo_bus).devices.map Prod.snd ∧
        (wire_bus wire_demo_bus).device_count =
          (wire_bus wire_demo_bus).devices.length)) :=
  ⟨by decide, by decide, by decide,
   C10_tree_order_reachable wire_demo_bus (by decide) (by decide) (by decide)⟩
